import Mathlib

/-!
Verification of the secretario-bot query-processing pipeline.

The definitions below are a shallow embedding of the Python sources of the
repository (paths refer to `src/`):

* `core/prompts.py`   — `ResponseValidator.validate_response`
* `bot/handlers.py`   — `BotHandlers._prepare_response`, `handle_query`, `cmd_start`
* `utils/greeting_detector.py` — `GreetingDetector.classify_message`
* `core/engine.py`    — `InstitutionalHybridBot._normalize_block_reference`
* `core/retriever.py` — `HybridRetriever._retrieve` (dict-based fusion)

Python strings are modelled as `List Char` (Unicode code points, matching
Python's `len` and slicing); `String` wrappers are used at the interfaces.
-/

namespace SecretarioBot

/-- Model of Python's `str` whitespace test (ASCII range), as used by
`str.strip()`: space, tab, newline, carriage return, vertical tab, form feed. -/
def pyIsSpace (c : Char) : Bool :=
  c = ' ' || c = '\t' || c = '\n' || c = '\r' || c = '\x0b' || c = '\x0c'

/-- Model of Python's `str.strip()`: drop leading and trailing whitespace. -/
def pyStrip (l : List Char) : List Char :=
  ((l.dropWhile pyIsSpace).reverse.dropWhile pyIsSpace).reverse

/-! ### ResponseValidator (`src/core/prompts.py`, lines 33-62) -/

/-- The fixed boilerplate lead-in candidates of `validate_response`
(`prefixes_to_remove`, `prompts.py` lines 47-52), in source order. -/
def prefixes_to_remove : List (List Char) :=
  [ "RESPOSTA:".data
  , "Resposta:".data
  , "Com base nos documentos,".data
  , "De acordo com os documentos,".data ]

/-- One iteration of the stripping loop (`prompts.py` lines 54-56):
`if response.startswith(p): response = response[len(p):].strip()`. -/
def stripMatchingCandidate (r p : List Char) : List Char :=
  if p.isPrefixOf r then pyStrip (r.drop p.length) else r

/-- The whole stripping phase of `validate_response`: initial `strip()`
(line 44) followed by the `for prefix in prefixes_to_remove` loop
(lines 54-56).  The loop has no `break`: every candidate is tested, in
order, against the *current* text. -/
def cleanResponse (r : List Char) : List Char :=
  prefixes_to_remove.foldl stripMatchingCandidate (pyStrip r)

/-- Reference rendering of the spec's wording for the stripping phase
("first match removes exactly that prefix and stops checking others"):
only the first matching candidate is removed.  Compared against
`cleanResponse`, the rendering of the code. -/
def cleanResponseSpec (r : List Char) : List Char :=
  let r0 := pyStrip r
  match prefixes_to_remove.find? (fun p => p.isPrefixOf r0) with
  | some p => pyStrip (r0.drop p.length)
  | none => r0

/-- Sequential, per-candidate form of the stripping loop: each candidate is
examined exactly once, in order, against the progressively stripped text. -/
def stripCandidatesRec : List (List Char) → List Char → List Char
  | [], r => r
  | p :: ps, r => stripCandidatesRec ps (stripMatchingCandidate r p)

/-- Minimum informative length (`prompts.py` line 59: `len(response) < 20`). -/
def min_response_length : Nat := 20

/-- The templated fallback of `validate_response` (`prompts.py` line 60),
echoing the original query. -/
def fallbackResponse (query : List Char) : List Char :=
  "Desculpe, não encontrei informações suficientes nos documentos para responder: \x27".data
    ++ query ++ "\x27".data

/-- Model of `ResponseValidator.validate_response` (`prompts.py` lines 33-62). -/
def validate_response (response query : String) : String :=
  if (cleanResponse response.data).length < min_response_length then
    ⟨fallbackResponse query.data⟩
  else ⟨cleanResponse response.data⟩

/-! ### Outbound truncation (`src/bot/handlers.py` lines 170-188,
`src/bot/messages.py` lines 59-62, `src/config/settings.py` line 30) -/

/-- Constant `MAX_RESPONSE_LENGTH` (`settings.py` line 30). -/
def MAX_RESPONSE_LENGTH : Nat := 4000

/-- Constant `BotMessages.truncation_warning` (`messages.py` lines 59-62). -/
def truncation_warning : List Char := "...".data

/-- Model of `BotHandlers._prepare_response` (`handlers.py` lines 170-188):
`if len(t) > MAX: t = t[:MAX-3] + truncation_warning`. -/
def prepare_response (response_text : List Char) : List Char :=
  if MAX_RESPONSE_LENGTH < response_text.length then
    response_text.take (MAX_RESPONSE_LENGTH - 3) ++ truncation_warning
  else response_text

/-! ### GreetingDetector (`src/utils/greeting_detector.py`) -/

/-- Latin-1 letters (beyond ASCII) occurring in this repository's pattern
tables and messages; all count as regex word characters in Python. -/
def accentedChars : List Char :=
  [ 'á', 'é', 'í', 'ó', 'ú', 'â', 'ê', 'ô', 'ã', 'õ', 'à', 'ç', 'ü'
  , 'Á', 'É', 'Í', 'Ó', 'Ú', 'Â', 'Ê', 'Ô', 'Ã', 'Õ', 'À', 'Ç', 'Ü', 'º', 'ª' ]

/-- Model of Python's regex word character (`\w`, Unicode mode), restricted
to ASCII plus the Latin-1 letters of `accentedChars`. -/
def isWordChar (c : Char) : Bool :=
  c.isAlphanum || c = '_' || accentedChars.contains c

/-- Model of Python's case folding (`str.lower()` / `re.IGNORECASE`) on the
character range used by this repository. -/
def ptLower (c : Char) : Char :=
  match c with
  | 'Á' => 'á' | 'É' => 'é' | 'Í' => 'í' | 'Ó' => 'ó' | 'Ú' => 'ú'
  | 'Â' => 'â' | 'Ê' => 'ê' | 'Ô' => 'ô' | 'Ã' => 'ã' | 'Õ' => 'õ'
  | 'À' => 'à' | 'Ç' => 'ç' | 'Ü' => 'ü'
  | c => c.toLower

/-- Whether `text` matches the literal word `w` starting at position `i`, with regex
word boundaries (`\b`) on both sides.  All words in the pattern tables start
and end with a word character, so `\b` holds exactly when the neighbouring
character (if any) is not a word character; `getD` with the non-word default
`' '` covers the string edges. -/
def boundedWordAt (text w : List Char) (i : Nat) : Bool :=
  ((text.drop i).take w.length == w)
    && (i == 0 || !isWordChar (text.getD (i - 1) ' '))
    && !isWordChar (text.getD (i + w.length) ' ')

/-- Model of `re.search` for `\b w \b`: some position of `text` carries a bounded
occurrence of `w`. -/
def containsBoundedWord (text w : List Char) : Bool :=
  (List.range text.length).any (fun i => boundedWordAt text w i)

/-- One alternative of the anchored pattern `^(oi+|olá+|hey+)$`: the whole
text is `stem` followed by one or more repetitions of `rep`. -/
def isRepeatedGreeting (text stem : List Char) (rep : Char) : Bool :=
  stem.isPrefixOf text
    && !(text.drop stem.length).isEmpty
    && (text.drop stem.length).all (fun c => c == rep)

/-- The word alternatives of `GREETING_PATTERNS`
(`greeting_detector.py` lines 12-19), excluding the two anchored patterns. -/
def GREETING_WORDS : List (List Char) :=
  [ "oi".data, "olá".data, "ola".data, "hey".data, "opa".data
  , "e aí".data, "eae".data, "eai".data
  , "bom dia".data, "boa tarde".data, "boa noite".data
  , "tudo bem".data, "tudo bom".data, "como vai".data, "td bem".data, "blz".data
  , "salve".data, "fala".data, "coé".data ]

/-- The word alternatives of `QUESTION_PATTERNS`
(`greeting_detector.py` lines 22-28), excluding the bare `\?` pattern. -/
def QUESTION_WORDS : List (List Char) :=
  [ "o que".data, "como".data, "quando".data, "onde".data
  , "por que".data, "porque".data, "qual".data, "quais".data
  , "quantos".data, "quantas".data
  , "pode".data, "poderia".data, "consegue".data, "sabe".data, "tem como".data
  , "me diga".data, "me fala".data, "me mostra".data, "me explica".data, "me ajuda".data
  , "quero saber".data, "gostaria de saber".data, "preciso saber".data ]

/-- Model of `GreetingDetector.is_greeting` (`greeting_detector.py` lines 41-51):
case-insensitive search of the greeting pattern alternation. -/
def is_greeting (text : String) : Bool :=
  let t := text.data.map ptLower
  GREETING_WORDS.any (fun w => containsBoundedWord t w)
    || isRepeatedGreeting t "o".data 'i'
    || isRepeatedGreeting t "ol".data 'á'
    || isRepeatedGreeting t "he".data 'y'
    || t == "/start".data

/-- Model of `GreetingDetector.is_question` (`greeting_detector.py` lines 53-63):
case-insensitive search of the question pattern alternation. -/
def is_question (text : String) : Bool :=
  let t := text.data.map ptLower
  t.any (fun c => c == '?')
    || QUESTION_WORDS.any (fun w => containsBoundedWord t w)

/-- Model of `GreetingDetector.classify_message` (`greeting_detector.py` lines 91-108). -/
def classify_message (text : String) : Bool × Bool :=
  (is_greeting text, is_question text)

/-! ### Query normalizer
(`src/core/engine.py`, `InstitutionalHybridBot._normalize_block_reference`,
lines 147-163) -/

/-- One row of the `block_patterns` table: the regex
`\b(first₁|first₂|...)\s*(second₁|second₂|...)\b` and its expansion phrase. -/
structure BlockPattern where
  firsts : List (List Char)
  seconds : List (List Char)
  expansion : String
deriving DecidableEq

/-- The `block_patterns` table (`engine.py` lines 149-154), in source order. -/
def block_patterns : List BlockPattern :=
  [ ⟨["primeiro".data, "1º".data, "1".data, "i".data],
     ["bloco".data, "período".data, "semestre".data], "Bloco I Primeiro semestre"⟩
  , ⟨["segundo".data, "2º".data, "2".data, "ii".data],
     ["bloco".data, "período".data, "semestre".data], "Bloco II Segundo semestre"⟩
  , ⟨["terceiro".data, "3º".data, "3".data, "iii".data],
     ["bloco".data, "período".data, "semestre".data], "Bloco III Terceiro semestre"⟩
  , ⟨["quarto".data, "4º".data, "4".data, "iv".data],
     ["bloco".data, "período".data, "semestre".data], "Bloco IV Quarto semestre"⟩ ]

/-- Match of `\b(firsts)\s*(seconds)\b` at position `i`: a word boundary, one
first alternative, a run of whitespace (`\s*`; every second alternative
starts with a non-space character, so the run is exactly the maximal one),
one second alternative, and a closing word boundary. -/
def blockPatternMatchAt (text : List Char) (firsts seconds : List (List Char)) (i : Nat) : Bool :=
  (i == 0 || !isWordChar (text.getD (i - 1) ' '))
    && firsts.any (fun a =>
        ((text.drop i).take a.length == a)
          && (seconds.any (fun b =>
                b.isPrefixOf (((text.drop i).drop a.length).dropWhile pyIsSpace)
                  && !isWordChar ((((text.drop i).drop a.length).dropWhile pyIsSpace).getD
                        b.length ' '))))

/-- Model of `re.search` for one row of the block-pattern table. -/
def blockPatternSearch (text : List Char) (firsts seconds : List (List Char)) : Bool :=
  (List.range text.length).any (fun i => blockPatternMatchAt text firsts seconds i)

/-- Model of `InstitutionalHybridBot._normalize_block_reference` (`engine.py` lines
147-163): the first matching table row (the loop `break`s) appends its
expansion to the original text as `f"{text} {expansion}"`; otherwise the
text is returned verbatim. -/
def normalize_block_reference (text : String) : String :=
  match block_patterns.find? (fun q =>
      blockPatternSearch (text.data.map ptLower) q.firsts q.seconds) with
  | some q => text ++ " " ++ q.expansion
  | none => text

/-! ### Bot handlers (`src/bot/handlers.py`) -/

/-- The user-visible replies a handler emits itself; the query pipeline's
eventual answer depends on the external engine/LLM and is outside this
model. -/
inductive HandlerMsg where
  | welcome
  | greetingReply
  | greetingIntro
  | processing
deriving DecidableEq

/-- Python `set.add` on the `users_started` set, modelled as a
duplicate-free list with membership semantics. -/
def setAdd (s : List Nat) (uid : Nat) : List Nat :=
  if uid ∈ s then s else s ++ [uid]

/-- Result of one handler invocation: the updated `users_started` set, the
messages the handler emitted, and whether `_process_query` (the
retrieval-and-synthesis pipeline, `handlers.py` lines 123-168) was
invoked. -/
structure HandlerOutcome where
  users_started : List Nat
  emitted : List HandlerMsg
  queryProcessed : Bool
deriving DecidableEq

/-- Model of `BotHandlers.cmd_start` (`handlers.py` lines 29-37): record the sender
and send the welcome message. -/
def cmd_start (users_started : List Nat) (user_id : Nat) : HandlerOutcome :=
  ⟨setAdd users_started user_id, [HandlerMsg.welcome], false⟩

/-- Model of `BotHandlers.handle_query` (`handlers.py` lines 82-121).  A pure
greeting answers with the fixed greeting reply, records the sender and
returns; greeting+question sends the intro to not-yet-greeted senders and
continues to `_process_query`; everything else goes straight to
`_process_query`, whose immediate processing placeholder is the first thing
it emits. -/
def handle_query (users_started : List Nat) (user_id : Nat) (text : String) : HandlerOutcome :=
  match classify_message text with
  | (true, false) => ⟨setAdd users_started user_id, [HandlerMsg.greetingReply], false⟩
  | (true, true) =>
      if user_id ∈ users_started then
        ⟨users_started, [HandlerMsg.processing], true⟩
      else
        ⟨setAdd users_started user_id,
         [HandlerMsg.greetingIntro, HandlerMsg.processing], true⟩
  | (_, _) => ⟨users_started, [HandlerMsg.processing], true⟩

/-! ### Hybrid retrieval fusion (`src/core/retriever.py`, lines 52-55)

The fusion step is the Python dict comprehension
`all_nodes = {n.node.node_id: n for n in vector_nodes + bm25_nodes}`
followed by `list(all_nodes.values())`.  A Python dict is insertion-ordered:
assigning to an existing key overwrites its value but keeps its position;
a new key is appended.  The dict is modelled as a key-unique association
list built by exactly that assignment rule. -/

/-- Origin tag of a retrieval candidate (spec §3: `origin ∈ {vector, lexical}`). -/
inductive Origin where
  | vector
  | lexical
deriving DecidableEq

/-- A retrieval candidate as the fusion step sees it: opaque identifier,
retriever-native score (carried, never inspected by fusion), origin tag. -/
structure Cand where
  node_id : String
  score : Int
  origin : Origin
deriving DecidableEq

/-- One Python dict assignment `d[k] = v`: overwrite in place, or append a
new key. -/
def dictUpd {α : Type} : List (String × α) → String → α → List (String × α)
  | [], k, v => [(k, v)]
  | p :: d, k, v => if p.fst = k then (k, v) :: d else p :: dictUpd d k v

/-- The dict comprehension `{key n : n for n in l}`: left-to-right
assignments into an initially empty dict. -/
def dictOfList {α : Type} (key : α → String) (l : List α) : List (String × α) :=
  l.foldl (fun d n => dictUpd d (key n) n) []

/-- Dict lookup `d[k]`. -/
def dictFind {α : Type} : List (String × α) → String → Option α
  | [], _ => none
  | p :: d, k => if p.fst = k then some p.snd else dictFind d k

/-- Model of the `HybridRetriever._retrieve` fusion (`retriever.py` lines 52-55):
`list({n.node.node_id: n for n in vector_nodes + bm25_nodes}.values())`. -/
def fuse_nodes {α : Type} (key : α → String) (vector_nodes bm25_nodes : List α) : List α :=
  (dictOfList key (vector_nodes ++ bm25_nodes)).map Prod.snd

/-- The keys of `l` in order of first occurrence, relative to already-seen
keys. -/
def firstOccFrom (seen : List String) : List String → List String
  | [] => []
  | k :: ks => if k ∈ seen then firstOccFrom seen ks else k :: firstOccFrom (k :: seen) ks

/-- The keys of `l` in order of first occurrence. -/
def firstOcc (l : List String) : List String := firstOccFrom [] l

/-- The last element of `l` whose key is `k` — the value a dict keyed by
`key` retains after inserting all of `l`. -/
def lastWith {α : Type} (key : α → String) (k : String) : List α → Option α
  | [] => none
  | n :: l =>
      match lastWith key k l with
      | some m => some m
      | none => if key n = k then some n else none

/-! ### Basic lemmas -/

theorem subset_setAdd (s : List Nat) (uid : Nat) : s ⊆ setAdd s uid := by
  unfold setAdd
  split
  · exact fun x hx => hx
  · exact fun x hx => List.mem_append_left _ hx

theorem mem_setAdd_self (s : List Nat) (uid : Nat) : uid ∈ setAdd s uid := by
  unfold setAdd
  split
  · assumption
  · exact List.mem_append_right _ (by simp)

theorem stripCandidatesRec_eq_foldl (ps : List (List Char)) (r : List Char) :
    ps.foldl stripMatchingCandidate r = stripCandidatesRec ps r := by
  induction ps generalizing r with
  | nil => rfl
  | cons p ps ih => simp [stripCandidatesRec, List.foldl_cons, ih]

theorem length_fallbackBase :
    ("Desculpe, não encontrei informações suficientes nos documentos para responder: \x27".data).length
      = 80 := by decide

theorem length_fallbackResponse (q : List Char) :
    (fallbackResponse q).length = 81 + q.length := by
  unfold fallbackResponse
  rw [List.length_append, List.length_append, length_fallbackBase]
  simp
  omega

/-! ### Fusion lemmas -/

theorem map_fst_dictUpd {α : Type} (d : List (String × α)) (k : String) (v : α) :
    (dictUpd d k v).map Prod.fst =
      if k ∈ d.map Prod.fst then d.map Prod.fst else d.map Prod.fst ++ [k] := by
  induction d with
  | nil => simp [dictUpd]
  | cons p d ih =>
      by_cases hpk : p.fst = k
      · simp [dictUpd, hpk]
      · have hkp : ¬k = p.fst := fun c => hpk c.symm
        simp only [dictUpd, if_neg hpk, List.map_cons, ih, List.mem_cons]
        by_cases hk : k ∈ d.map Prod.fst
        · simp [hk, hkp]
        · simp [hk, hkp]

theorem firstOccFrom_cons (seen : List String) (k : String) (ks : List String) :
    firstOccFrom seen (k :: ks)
      = if k ∈ seen then firstOccFrom seen ks else k :: firstOccFrom (k :: seen) ks := by
  simp only [firstOccFrom]

theorem lastWith_cons {α : Type} (key : α → String) (k : String) (n : α) (l : List α) :
    lastWith key k (n :: l)
      = match lastWith key k l with
        | some m => some m
        | none => if key n = k then some n else none := by
  simp only [lastWith]

theorem firstOccFrom_congr (l : List String) :
    ∀ seen₁ seen₂, (∀ k, k ∈ seen₁ ↔ k ∈ seen₂) →
      firstOccFrom seen₁ l = firstOccFrom seen₂ l := by
  induction l with
  | nil => intros; rfl
  | cons k l ih =>
      intro s₁ s₂ h
      rw [firstOccFrom_cons, firstOccFrom_cons]
      by_cases hk : k ∈ s₁
      · rw [if_pos hk, if_pos ((h k).mp hk)]
        exact ih s₁ s₂ h
      · rw [if_neg hk, if_neg (fun c => hk ((h k).mpr c))]
        congr 1
        apply ih
        intro k'
        simp [List.mem_cons, h k']

theorem map_fst_foldl_dictUpd {α : Type} (key : α → String) (l : List α) :
    ∀ d : List (String × α),
      ((l.foldl (fun d n => dictUpd d (key n) n) d).map Prod.fst)
        = d.map Prod.fst ++ firstOccFrom (d.map Prod.fst) (l.map key) := by
  induction l with
  | nil => intro d; simp [firstOccFrom]
  | cons n l ih =>
      intro d
      rw [List.foldl_cons, ih (dictUpd d (key n) n), map_fst_dictUpd, List.map_cons,
        firstOccFrom_cons]
      by_cases h : key n ∈ d.map Prod.fst
      · rw [if_pos h, if_pos h]
      · rw [if_neg h, if_neg h]
        rw [List.append_assoc, List.singleton_append]
        congr 1
        congr 1
        apply firstOccFrom_congr
        intro k'
        simp [List.mem_append, List.mem_cons, or_comm]

theorem nodup_firstOccFrom (l : List String) :
    ∀ seen, (firstOccFrom seen l).Nodup ∧ ∀ k ∈ firstOccFrom seen l, k ∉ seen := by
  induction l with
  | nil => intro seen; exact ⟨List.nodup_nil, by intro k hk; cases hk⟩
  | cons k l ih =>
      intro seen
      rw [firstOccFrom_cons]
      by_cases hk : k ∈ seen
      · rw [if_pos hk]; exact ih seen
      · rw [if_neg hk]
        obtain ⟨hn, hs⟩ := ih (k :: seen)
        refine ⟨List.nodup_cons.mpr ⟨fun hmem => (hs k hmem) (List.mem_cons_self k _), hn⟩, ?_⟩
        intro k' hk'
        rcases List.mem_cons.mp hk' with rfl | hk''
        · exact hk
        · exact fun hcs => hs k' hk'' (List.mem_cons_of_mem _ hcs)

theorem length_firstOccFrom_le (l : List String) :
    ∀ seen, (firstOccFrom seen l).length ≤ l.length := by
  induction l with
  | nil => intro seen; exact Nat.le_refl 0
  | cons k l ih =>
      intro seen
      rw [firstOccFrom_cons]
      by_cases hk : k ∈ seen
      · rw [if_pos hk]
        exact Nat.le_succ_of_le (ih seen)
      · rw [if_neg hk]
        exact Nat.succ_le_succ (ih (k :: seen))

theorem length_firstOccFrom_eq_iff (l : List String) :
    ∀ seen, (firstOccFrom seen l).length = l.length ↔ l.Nodup ∧ ∀ k ∈ l, k ∉ seen := by
  induction l with
  | nil => intro seen; simp [firstOccFrom]
  | cons k l ih =>
      intro seen
      rw [firstOccFrom_cons]
      by_cases hk : k ∈ seen
      · rw [if_pos hk]
        constructor
        · intro h
          exact absurd h (Nat.ne_of_lt (Nat.lt_succ_of_le (length_firstOccFrom_le l seen)))
        · rintro ⟨-, hall⟩
          exact absurd hk (hall k (List.mem_cons_self k l))
      · rw [if_neg hk]
        simp only [List.length_cons, Nat.succ.injEq, ih (k :: seen), List.nodup_cons]
        constructor
        · rintro ⟨hnd, hall⟩
          refine ⟨⟨fun hkl => ?_, hnd⟩, ?_⟩
          · exact hall k hkl (List.mem_cons_self k seen)
          · intro k' hk'
            rcases List.mem_cons.mp hk' with rfl | hk''
            · exact hk
            · exact fun hs => hall k' hk'' (List.mem_cons_of_mem _ hs)
        · rintro ⟨⟨hkl, hnd⟩, hall⟩
          refine ⟨hnd, ?_⟩
          intro k' hk' hks
          rcases List.mem_cons.mp hks with rfl | hks'
          · exact hkl hk'
          · exact hall k' (List.mem_cons_of_mem _ hk') hks'

theorem key_snd_dictUpd {α : Type} (d : List (String × α)) (n : α) (key : α → String)
    (h : ∀ p ∈ d, key p.snd = p.fst) :
    ∀ p ∈ dictUpd d (key n) n, key p.snd = p.fst := by
  induction d with
  | nil =>
      intro p hp
      rcases List.mem_singleton.mp hp with rfl
      rfl
  | cons q d ih =>
      intro p hp
      unfold dictUpd at hp
      split at hp
      · rcases List.mem_cons.mp hp with rfl | hp'
        · rfl
        · exact h p (List.mem_cons_of_mem _ hp')
      · rcases List.mem_cons.mp hp with rfl | hp'
        · exact h p (List.mem_cons_self _ _)
        · exact ih (fun r hr => h r (List.mem_cons_of_mem _ hr)) p hp'

theorem key_snd_dictOfList {α : Type} (key : α → String) (l : List α) :
    ∀ d, (∀ p ∈ d, key p.snd = p.fst) →
      ∀ p ∈ l.foldl (fun d n => dictUpd d (key n) n) d, key p.snd = p.fst := by
  induction l with
  | nil => intro d h; exact h
  | cons n l ih =>
      intro d h
      rw [List.foldl_cons]
      exact ih (dictUpd d (key n) n) (key_snd_dictUpd d n key h)

theorem map_key_fuse {α : Type} (key : α → String) (vec bm : List α) :
    (fuse_nodes key vec bm).map key = firstOcc ((vec ++ bm).map key) := by
  unfold fuse_nodes firstOcc
  rw [List.map_map]
  have h1 : (dictOfList key (vec ++ bm)).map (key ∘ Prod.snd)
      = (dictOfList key (vec ++ bm)).map Prod.fst := by
    apply List.map_congr_left
    intro p hp
    exact key_snd_dictOfList key (vec ++ bm) [] (by intro p hp; cases hp) p hp
  rw [h1]
  have h2 := map_fst_foldl_dictUpd key (vec ++ bm) []
  simpa [dictOfList] using h2

theorem dictFind_dictUpd {α : Type} (d : List (String × α)) (k k' : String) (v : α) :
    dictFind (dictUpd d k' v) k = if k = k' then some v else dictFind d k := by
  induction d with
  | nil =>
      unfold dictUpd dictFind
      by_cases h : k = k'
      · rw [if_pos h.symm, if_pos h]
      · rw [if_neg (fun c => h c.symm), if_neg h]
        rfl
  | cons p d ih =>
      by_cases h1 : p.fst = k'
      · unfold dictUpd
        rw [if_pos h1]
        unfold dictFind
        by_cases h2 : k = k'
        · rw [if_pos h2.symm, if_pos h2]
        · rw [if_neg (fun c => h2 c.symm), if_neg h2, if_neg (fun c => h2 (h1 ▸ c).symm)]
  -- `p.fst = k` would give `k = k'` via `h1`
      · unfold dictUpd
        rw [if_neg h1]
        unfold dictFind
        by_cases h3 : p.fst = k
        · rw [if_pos h3, if_neg (fun c => h1 (h3.trans c)), if_pos h3]
        · rw [if_neg h3, ih]
          by_cases h2 : k = k'
          · rw [if_pos h2, if_pos h2]
          · rw [if_neg h2, if_neg h2, if_neg h3]

theorem dictFind_foldl {α : Type} (key : α → String) (k : String) (l : List α) :
    ∀ d, dictFind (l.foldl (fun d n => dictUpd d (key n) n) d) k
      = match lastWith key k l with
        | some m => some m
        | none => dictFind d k := by
  induction l with
  | nil => intro d; rfl
  | cons n l ih =>
      intro d
      rw [List.foldl_cons, ih, lastWith_cons]
      cases lastWith key k l with
      | some m => rfl
      | none =>
          rw [dictFind_dictUpd]
          by_cases h : key n = k
          · rw [if_pos h.symm, if_pos h]
          · rw [if_neg (fun c => h c.symm), if_neg h]

theorem lastWith_append {α : Type} (key : α → String) (k : String) (l₁ l₂ : List α) :
    lastWith key k (l₁ ++ l₂)
      = match lastWith key k l₂ with
        | some m => some m
        | none => lastWith key k l₁ := by
  induction l₁ with
  | nil =>
      cases h : lastWith key k l₂ with
      | some m => exact h
      | none => exact h
  | cons n l₁ ih =>
      rw [List.cons_append, lastWith_cons, lastWith_cons, ih]
      cases lastWith key k l₂ with
      | some m => rfl
      | none => rfl

theorem lastWith_eq_some {α : Type} (key : α → String) (k : String) (l : List α) :
    ∀ c, lastWith key k l = some c → c ∈ l ∧ key c = k := by
  induction l with
  | nil => intro c h; cases h
  | cons n l ih =>
      intro c h
      rw [lastWith_cons] at h
      cases hl : lastWith key k l with
      | some m =>
          rw [hl] at h
          obtain ⟨hm, hk⟩ := ih m hl
          cases h
          exact ⟨List.mem_cons_of_mem _ hm, hk⟩
      | none =>
          rw [hl] at h
          by_cases hn : key n = k
          · rw [if_pos hn] at h
            cases h
            exact ⟨List.mem_cons_self _ _, hn⟩
          · rw [if_neg hn] at h
            cases h

theorem lastWith_isSome {α : Type} (key : α → String) (k : String) (l : List α) :
    k ∈ l.map key → ∃ c, lastWith key k l = some c := by
  induction l with
  | nil => intro h; cases h
  | cons n l ih =>
      intro h
      rw [lastWith_cons]
      cases hl : lastWith key k l with
      | some m => exact ⟨m, rfl⟩
      | none =>
          rcases List.mem_cons.mp h with heq | hmem
          · exact ⟨n, by rw [if_pos heq.symm]⟩
          · obtain ⟨c, hc⟩ := ih hmem
            rw [hc] at hl
            cases hl

/-! ### Claim theorems for the validator and truncation -/

/-- Claim C3 — `validate_response` is total (a Lean function) and for every raw
response and query it returns a string of length at least the informative
threshold (20): either the cleaned original (which then has length ≥ 20) or
the templated fallback that echoes the original query; in particular the
result is never empty. -/
theorem validate_response_min_length (response query : String) :
    min_response_length ≤ (validate_response response query).length ∧
    validate_response response query ≠ "" ∧
    (((validate_response response query).data = cleanResponse response.data ∧
       min_response_length ≤ (cleanResponse response.data).length) ∨
      (validate_response response query).data = fallbackResponse query.data) := by
  have hfb := length_fallbackResponse query.data
  unfold validate_response
  by_cases h : (cleanResponse response.data).length < min_response_length
  · rw [if_pos h]
    refine ⟨?_, ?_, Or.inr rfl⟩
    · show min_response_length ≤ (fallbackResponse query.data).length
      unfold min_response_length
      omega
    · intro hc
      have h0 : fallbackResponse query.data = ([] : List Char) := String.ext_iff.mp hc
      rw [h0] at hfb
      simp only [List.length_nil] at hfb
      omega
  · rw [if_neg h]
    unfold min_response_length at h
    refine ⟨?_, ?_, Or.inl ⟨rfl, by unfold min_response_length; omega⟩⟩
    · show min_response_length ≤ (cleanResponse response.data).length
      unfold min_response_length
      omega
    · intro hc
      have h0 : cleanResponse response.data = ([] : List Char) := String.ext_iff.mp hc
      rw [h0] at h
      simp at h

/-- Claim C2, counterexample — the claim "after the first candidate prefix that
matches is removed, no further candidate prefixes are checked or removed" is
false: on a response starting with `RESPOSTA:` followed directly by
`Com base nos documentos,`, the loop removes both candidates, so the code's
result differs from the stop-after-first-match reading (`cleanResponseSpec`). -/
theorem cleanResponse_strips_two_prefixes :
    validate_response "RESPOSTA: Com base nos documentos, a matrícula ocorre em janeiro." "q"
      = "a matrícula ocorre em janeiro." ∧
    cleanResponseSpec "RESPOSTA: Com base nos documentos, a matrícula ocorre em janeiro.".data
      = "Com base nos documentos, a matrícula ocorre em janeiro.".data ∧
    cleanResponse "RESPOSTA: Com base nos documentos, a matrícula ocorre em janeiro.".data
      ≠ cleanResponseSpec "RESPOSTA: Com base nos documentos, a matrícula ocorre em janeiro.".data := by
  decide

/-- Claim C2, amended — boilerplate stripping tests every candidate prefix, in
table order, against the *current* (progressively stripped) text, removing
each candidate that matches; so more than one prefix can be removed from a
single response, as the concrete run shows. -/
theorem cleanResponse_checks_all_candidates :
    (∀ r : List Char, cleanResponse r = stripCandidatesRec prefixes_to_remove (pyStrip r)) ∧
    validate_response "RESPOSTA: Com base nos documentos, a matrícula ocorre em janeiro." "q"
      = "a matrícula ocorre em janeiro." :=
  ⟨fun r => stripCandidatesRec_eq_foldl _ _, by decide⟩

/-- Claim C5 — `classify_message` is a total function returning the pair of the
two detector booleans; the empty string classifies as `(false, false)`, and
the four concrete spec examples hold. -/
theorem classify_message_spec :
    (∀ s : String, classify_message s = (is_greeting s, is_question s)) ∧
    classify_message "" = (false, false) ∧
    classify_message "oi" = (true, false) ∧
    classify_message "bom dia, quais as disciplinas do primeiro bloco?" = (true, true) ∧
    classify_message "quais as disciplinas do primeiro bloco?" = (false, true) ∧
    classify_message "ok obrigado" = (false, false) :=
  ⟨fun _ => rfl, by decide, by decide, by decide, by decide, by decide⟩

/-- Claim C6, counterexample — the claim that *any* input containing
`"primeiro bloco"` gains the Block I expansion is false: in
`"xprimeiro bloco"` the substring occurs without a preceding word boundary,
no table row matches, and the text is returned verbatim, without the
expansion phrase. -/
theorem normalize_xprimeiro_bloco_unchanged :
    List.IsInfix "primeiro bloco".data "xprimeiro bloco".data ∧
    normalize_block_reference "xprimeiro bloco" = "xprimeiro bloco" ∧
    ¬ List.IsInfix "Bloco I Primeiro semestre".data
        (normalize_block_reference "xprimeiro bloco").data := by
  refine ⟨by decide, by decide, by decide⟩

/-- Claim C6, amended — if no block-pattern row matches the lower-cased text,
`normalize_block_reference` returns the input verbatim; if some row matches,
the first matching row in table order fires and its expansion phrase is
appended to the original text after a space (never substituted), so the
output is the original text followed by the expansion; in particular an
input containing `"primeiro bloco"` *at word boundaries* — such as the spec's
query `"quais as disciplinas do primeiro bloco?"` — yields the original text
plus the Block I expansion phrase. -/
theorem normalize_block_reference_spec :
    (∀ x : String,
        block_patterns.find? (fun q =>
          blockPatternSearch (x.data.map ptLower) q.firsts q.seconds) = none →
        normalize_block_reference x = x) ∧
    (∀ (x : String) (p : BlockPattern),
        block_patterns.find? (fun q =>
          blockPatternSearch (x.data.map ptLower) q.firsts q.seconds) = some p →
        normalize_block_reference x = x ++ " " ++ p.expansion) ∧
    normalize_block_reference "quais as disciplinas do primeiro bloco?"
      = "quais as disciplinas do primeiro bloco? Bloco I Primeiro semestre" := by
  refine ⟨fun x h => ?_, fun x p h => ?_, by decide⟩
  · unfold normalize_block_reference
    rw [h]
  · unfold normalize_block_reference
    rw [h]

/-- Claim C6, witness — a concrete non-matching input passes through
unchanged. -/
theorem normalize_block_reference_spec_witness :
    normalize_block_reference "ola" = "ola" :=
  normalize_block_reference_spec.1 "ola" (by decide)

/-- Claim C10 — block normalization is not idempotent on matching input: for
`"primeiro bloco"` a second application appends the expansion phrase again,
because both the original text and the appended expansion phrase itself
(`"Bloco I Primeiro semestre"` contains the bounded `"primeiro semestre"`)
re-trigger the first table row. -/
theorem normalize_block_reference_not_idempotent :
    normalize_block_reference "primeiro bloco"
      = "primeiro bloco Bloco I Primeiro semestre" ∧
    normalize_block_reference (normalize_block_reference "primeiro bloco")
      = "primeiro bloco Bloco I Primeiro semestre Bloco I Primeiro semestre" ∧
    normalize_block_reference (normalize_block_reference "primeiro bloco")
      ≠ normalize_block_reference "primeiro bloco" ∧
    normalize_block_reference "Bloco I Primeiro semestre"
      = "Bloco I Primeiro semestre Bloco I Primeiro semestre" := by
  refine ⟨by decide, by decide, by decide, by decide⟩

/-- Claim C8 — a message classified `(isGreeting := true, hasQuestion := false)`
makes the handler emit exactly the fixed greeting reply, add the sender to
the greeted-users set, and stop without invoking query processing; and the
greeted-users set grows monotonically: neither `handle_query` nor
`cmd_start` ever removes an identifier. -/
theorem handle_query_greeting_shortcircuit :
    (∀ (st : List Nat) (uid : Nat) (text : String),
        classify_message text = (true, false) →
        handle_query st uid text
          = ⟨setAdd st uid, [HandlerMsg.greetingReply], false⟩ ∧
        uid ∈ (handle_query st uid text).users_started ∧
        (handle_query st uid text).queryProcessed = false) ∧
    (∀ (st : List Nat) (uid : Nat) (text : String),
        st ⊆ (handle_query st uid text).users_started) ∧
    (∀ (st : List Nat) (uid : Nat), st ⊆ (cmd_start st uid).users_started) := by
  refine ⟨fun st uid text h => ?_, fun st uid text => ?_, fun st uid => subset_setAdd st uid⟩
  · have he : handle_query st uid text
        = ⟨setAdd st uid, [HandlerMsg.greetingReply], false⟩ := by
      unfold handle_query
      rw [h]
    refine ⟨he, ?_, by rw [he]⟩
    rw [he]
    exact mem_setAdd_self st uid
  · unfold handle_query
    rcases classify_message text with ⟨g, q⟩
    cases g <;> cases q
    · exact fun x hx => hx
    · exact fun x hx => hx
    · exact subset_setAdd st uid
    · dsimp only
      split
      · exact fun x hx => hx
      · exact subset_setAdd st uid

/-- Claim C8, witness — the pure-greeting path on the concrete message
`"oi"` from sender `7` with an empty greeted set. -/
theorem handle_query_greeting_shortcircuit_witness :
    handle_query [] 7 "oi" = ⟨[7], [HandlerMsg.greetingReply], false⟩ ∧
    7 ∈ (handle_query [] 7 "oi").users_started ∧
    (handle_query [] 7 "oi").queryProcessed = false := by
  have h := handle_query_greeting_shortcircuit.1 [] 7 "oi" (by decide)
  exact ⟨h.1.trans (by decide), h.2.1, h.2.2⟩

/-- Claim C4 — any prepared response longer than the 4000-character limit is cut
to `max-3` characters plus the `"..."` marker, giving exactly 4000 characters
ending in the marker; a 5000-character response becomes exactly 4000
characters ending in the marker; shorter responses pass through unchanged. -/
theorem prepare_response_truncation (s : List Char) :
    (MAX_RESPONSE_LENGTH < s.length →
      (prepare_response s).length = MAX_RESPONSE_LENGTH ∧
      ∃ p, prepare_response s = p ++ truncation_warning) ∧
    (s.length = 5000 →
      (prepare_response s).length = 4000 ∧
      ∃ p, prepare_response s = p ++ truncation_warning) ∧
    (s.length ≤ MAX_RESPONSE_LENGTH → prepare_response s = s) := by
  have hw : truncation_warning.length = 3 := by decide
  have key : MAX_RESPONSE_LENGTH < s.length →
      (prepare_response s).length = MAX_RESPONSE_LENGTH ∧
      ∃ p, prepare_response s = p ++ truncation_warning := by
    intro h
    unfold prepare_response
    rw [if_pos h]
    refine ⟨?_, ⟨_, rfl⟩⟩
    rw [List.length_append, List.length_take, hw]
    unfold MAX_RESPONSE_LENGTH at h ⊢
    omega
  refine ⟨key, fun h5 => ?_, fun hle => ?_⟩
  · exact key (by rw [h5]; decide)
  · unfold prepare_response
    rw [if_neg (Nat.not_lt.mpr hle)]

/-- Claim C4, witness — the truncation theorem instantiated on a concrete
5000-character response. -/
theorem prepare_response_truncation_witness :
    (prepare_response (List.replicate 5000 'a')).length = 4000 ∧
    ∃ p, prepare_response (List.replicate 5000 'a') = p ++ truncation_warning :=
  (prepare_response_truncation (List.replicate 5000 'a')).2.1 (by rw [List.length_replicate])

/-- Claim C1, counterexample — the claim that an identifier appearing in both
source lists keeps the vector entry (score and origin unchanged) is false:
the dict comprehension overwrites values on key collision, so for the
overlapping identifier `"a"` the fused set retains the lexical (BM25) entry,
not the vector one, and its origin tag is `lexical`. -/
theorem fuse_overlap_counterexample :
    fuse_nodes Cand.node_id [⟨"a", 1, Origin.vector⟩] [⟨"a", 2, Origin.lexical⟩]
      = [⟨"a", 2, Origin.lexical⟩] ∧
    (fuse_nodes Cand.node_id [⟨"a", 1, Origin.vector⟩]
        [⟨"a", 2, Origin.lexical⟩]).map Cand.origin ≠ [Origin.vector] ∧
    fuse_nodes Cand.node_id [⟨"a", 1, Origin.vector⟩] [⟨"a", 2, Origin.lexical⟩]
      ≠ [⟨"a", 1, Origin.vector⟩] := by
  refine ⟨by decide, by decide, by decide⟩

/-- Claim C1, amended — if an identifier appears in the lexical (BM25) list,
the fused mapping's entry for it is an entry of the *lexical* list (the last
assignment wins), so for an identifier present in both lists the vector
entry's score and origin tag are discarded and the fused entry's origin tag
is `lexical`, as the concrete overlapping example shows. -/
theorem fuse_overlap_keeps_lexical :
    (∀ (α : Type) (key : α → String) (vec bm : List α) (k : String),
        k ∈ bm.map key →
        ∃ c, c ∈ bm ∧ key c = k ∧
          dictFind (dictOfList key (vec ++ bm)) k = some c) ∧
    fuse_nodes Cand.node_id [⟨"a", 1, Origin.vector⟩] [⟨"a", 2, Origin.lexical⟩]
      = [⟨"a", 2, Origin.lexical⟩] := by
  refine ⟨fun α key vec bm k hb => ?_, by decide⟩
  obtain ⟨c, hc⟩ := lastWith_isSome key k bm hb
  obtain ⟨hmem, hkey⟩ := lastWith_eq_some key k bm c hc
  refine ⟨c, hmem, hkey, ?_⟩
  have happ : lastWith key k (vec ++ bm) = some c := by
    rw [lastWith_append, hc]
  unfold dictOfList
  rw [dictFind_foldl, happ]

/-- Claim C1, witness — the amended lookup fact instantiated on the concrete
overlapping lists. -/
theorem fuse_overlap_keeps_lexical_witness :
    ∃ c, c ∈ ([⟨"a", 2, Origin.lexical⟩] : List Cand) ∧ c.node_id = "a" ∧
      dictFind (dictOfList Cand.node_id
        ([⟨"a", 1, Origin.vector⟩] ++ [⟨"a", 2, Origin.lexical⟩])) "a" = some c :=
  fuse_overlap_keeps_lexical.1 Cand Cand.node_id
    [⟨"a", 1, Origin.vector⟩] [⟨"a", 2, Origin.lexical⟩] "a" (by decide)

/-- Claim C7, counterexample — "size = vector count + lexical count iff the
two lists share no identifier" fails when one list repeats an identifier
internally: two vector candidates with the same id and an empty lexical list
share no identifier across the lists, yet the fused set has 1 < 2 entries. -/
theorem fuse_size_counterexample :
    (fuse_nodes Cand.node_id
        [⟨"a", 1, Origin.vector⟩, ⟨"a", 2, Origin.vector⟩] ([] : List Cand)).length = 1 ∧
    (∀ k ∈ ([⟨"a", 1, Origin.vector⟩, ⟨"a", 2, Origin.vector⟩] : List Cand).map Cand.node_id,
        k ∉ (([] : List Cand)).map Cand.node_id) ∧
    (fuse_nodes Cand.node_id
        [⟨"a", 1, Origin.vector⟩, ⟨"a", 2, Origin.vector⟩] ([] : List Cand)).length
      ≠ ([⟨"a", 1, Origin.vector⟩, ⟨"a", 2, Origin.vector⟩] : List Cand).length
          + (([] : List Cand)).length := by
  refine ⟨by decide, by decide, by decide⟩

/-- Claim C7, amended — the fused result has pairwise-distinct identifiers and
at most (vector count + lexical count) entries; *provided each input list has
pairwise-distinct identifiers*, the size equals the sum iff the two lists
share no identifier; and its identifier sequence is exactly the first
occurrences, in order, of the concatenation vector-then-lexical (insertion
order, not score order). -/
theorem fuse_nodes_spec (α : Type) (key : α → String) (vec bm : List α) :
    ((fuse_nodes key vec bm).map key).Nodup ∧
    (fuse_nodes key vec bm).length ≤ vec.length + bm.length ∧
    ((vec.map key).Nodup → (bm.map key).Nodup →
      ((fuse_nodes key vec bm).length = vec.length + bm.length
        ↔ ∀ k ∈ vec.map key, k ∉ bm.map key)) ∧
    (fuse_nodes key vec bm).map key = firstOcc ((vec ++ bm).map key) := by
  have h4 := map_key_fuse key vec bm
  have hlen : (fuse_nodes key vec bm).length
      = (firstOcc (((vec ++ bm)).map key)).length := by
    rw [← h4, List.length_map]
  have hL : ((vec ++ bm).map key).length = vec.length + bm.length := by
    rw [List.length_map, List.length_append]
  refine ⟨?_, ?_, ?_, h4⟩
  · rw [h4]
    exact (nodup_firstOccFrom ((vec ++ bm).map key) []).1
  · rw [hlen]
    exact le_trans (length_firstOccFrom_le ((vec ++ bm).map key) []) (le_of_eq hL)
  · intro hv hb
    rw [hlen, ← hL]
    unfold firstOcc
    rw [length_firstOccFrom_eq_iff ((vec ++ bm).map key) []]
    have hnd : ((vec ++ bm).map key).Nodup ↔ ∀ k ∈ vec.map key, k ∉ bm.map key := by
      rw [List.map_append, List.nodup_append]
      constructor
      · rintro ⟨-, -, hdisj⟩
        exact fun k hk => hdisj hk
      · intro hdisj
        exact ⟨hv, hb, fun a ha => hdisj a ha⟩
    constructor
    · rintro ⟨hnodup, -⟩
      exact hnd.mp hnodup
    · intro hdisj
      exact ⟨hnd.mpr hdisj, fun k _ hk => by cases hk⟩

/-- Claim C7, witness — the amended size law instantiated on concrete
non-overlapping one-element lists: the fused size is the full sum. -/
theorem fuse_nodes_spec_witness :
    (fuse_nodes Cand.node_id [⟨"a", 1, Origin.vector⟩] [⟨"b", 2, Origin.lexical⟩]).length
      = ([⟨"a", 1, Origin.vector⟩] : List Cand).length
          + ([⟨"b", 2, Origin.lexical⟩] : List Cand).length :=
  ((fuse_nodes_spec Cand Cand.node_id [⟨"a", 1, Origin.vector⟩]
      [⟨"b", 2, Origin.lexical⟩]).2.2.1 (by decide) (by decide)).mpr (by decide)

end SecretarioBot
